import Mathlib

/-!
# dtree: a directory-tree utility (`src/dtree.c`)

Shallow embedding of the path resolver, the directory materializer, the stream
copier and the per-node dispatcher of `dtree.c`, with the properties of the
specification stated and settled against it.

A C string is modelled by the list of its characters before the terminating
NUL, so `strlen` is the length of the list and reading the string at index
`strlen` yields the NUL character.
-/

namespace DTree

/-! ## C strings -/

/-- A C string: its characters before the terminating NUL. -/
abbrev CStr := List Char

/-- C `strlen`. -/
def strlen (s : CStr) : Nat := s.length

/-- The character read by `s[i]` for `i ≤ strlen s`; index `strlen s` holds the terminator. -/
def charAt (s : CStr) (i : Nat) : Char := s.getD i (Char.ofNat 0)

/-- C `strncmp`: compares at most `n` characters, stopping at the first difference or at the
end of both strings; zero when no difference was met, negative or positive according to the
first difference (the standard fixes only the sign). -/
def strncmp : CStr → CStr → Nat → Int
  | _, _, 0 => 0
  | [], [], _ + 1 => 0
  | [], _ :: _, _ + 1 => -1
  | _ :: _, [], _ + 1 => 1
  | x :: xs, y :: ys, n + 1 =>
    if x = y then strncmp xs ys n else if x < y then -1 else 1

/-- C `strcmp`: zero when the strings are equal, negative or positive according to the first
difference (the standard fixes only the sign). -/
def strcmp : CStr → CStr → Int
  | [], [] => 0
  | [], _ :: _ => -1
  | _ :: _, [] => 1
  | x :: xs, y :: ys => if x = y then strcmp xs ys else if x < y then -1 else 1

/-- C `strrchr(s, c)` for a non-NUL `c`: the tail of `s` starting at the last occurrence of
`c`, or `none` (NULL) when `c` does not occur. -/
def strrchr : CStr → Char → Option CStr
  | [], _ => none
  | x :: xs, c =>
    match strrchr xs c with
    | some t => some t
    | none => if x = c then some (x :: xs) else none

/-- The effect of `snprintf(buf, size, "%s", s)` with `size > 0`: at most `size - 1`
characters are stored. -/
def snprintf (size : Nat) (s : CStr) : CStr := s.take (size - 1)

/-! ## Path resolver -/

/-- Source `createRelativePath` (dtree.c:55-69). The returned pointer into `absolutePath` is
modelled by the string it points at; `none` is NULL. -/
def createRelativePath (absolutePath rootPath : CStr) : Option CStr :=
  let rootLength := strlen rootPath
  if strncmp absolutePath rootPath rootLength = 0 then
    if charAt absolutePath rootLength = '/' then
      some (absolutePath.drop (rootLength + 1))
    else
      some (absolutePath.drop rootLength)
  else
    none

/-! ## Directory materializer -/

/-- The `for` loop of `buildIntermediaryDirectories` (dtree.c:42-50): `rest` holds the
characters of `modifiedPath` from index `i` on; every `'/'` met at index `i` triggers
`mkdir` on the first `i` characters. The list of the paths passed to `mkdir`, in call order. -/
def mkdirLoop (modifiedPath : CStr) : Nat → CStr → List CStr
  | _, [] => []
  | i, c :: rest =>
    if c = '/' then modifiedPath.take i :: mkdirLoop modifiedPath (i + 1) rest
    else mkdirLoop modifiedPath (i + 1) rest

/-- What one run of `buildIntermediaryDirectories` does: the paths passed to `mkdir`, in call
order, and the returned value. -/
structure MkdirRun where
  calls : List CStr
  ret : Int
deriving DecidableEq, Repr

/-- Source `buildIntermediaryDirectories` (dtree.c:30-52). `PATH_MAX` is the constant of
`<limits.h>`; `mkdir i p` is what the `i`-th call of `mkdir`, made on path `p`, returns.
On the empty path the source reads `modifiedPath[-1]`, which is undefined: `none`. -/
def buildIntermediaryDirectories (PATH_MAX : Nat) (mkdir : Nat → CStr → Int)
    (fullPath : CStr) : Option MkdirRun :=
  let modifiedPath := snprintf PATH_MAX fullPath
  let pathLength := strlen modifiedPath
  if pathLength = 0 then none
  else
    let modifiedPath :=
      if charAt modifiedPath (pathLength - 1) = '/' then modifiedPath.take (pathLength - 1)
      else modifiedPath
    let parents := mkdirLoop modifiedPath 1 (modifiedPath.drop 1)
    some ⟨parents ++ [modifiedPath], mkdir parents.length modifiedPath⟩

/-! ## Stream copier -/

/-- One byte of file content. -/
abbrev Byte := Nat

/-- What a call of `write` reports: `ok k` when the kernel is ready to accept `k` bytes (it
accepts at most the requested count), `eintr` for `-1` with `errno = EINTR`, and `error` for
`-1` with any other `errno`. -/
inductive WriteResult where
  | ok (k : Nat)
  | eintr
  | error
deriving DecidableEq, Repr

/-- The file system as `cloneFile` meets it. -/
structure Kernel where
  /-- The content of the source when `open(sourceFile, O_RDONLY)` succeeds, `none` when it fails. -/
  source : Option (List Byte)
  /-- Whether opening the destination succeeds. -/
  destinationOpens : Bool
  /-- The `i`-th call of `read`: `none` is `-1`; `some k` delivers the next bytes of the
  source, at most `k` and at most the requested count. -/
  readOffer : Nat → Option Nat
  /-- The `j`-th call of `write`. -/
  writeOffer : Nat → WriteResult

/-- One call of `write`: the count requested and the bytes the kernel accepted, none when the
call failed. The `j`-th entry of a log is the `j`-th call. -/
structure WriteCall where
  requested : Nat
  accepted : List Byte
deriving DecidableEq, Repr

/-- The bytes that reached the destination: the accepted bytes of every write, in order. -/
def written (log : List WriteCall) : List Byte := (log.map WriteCall.accepted).flatten

/-- How the inner `do ... while` loop ends: with the chunk written (`finished`, the index of
the next write call and the log), or with a fatal write error. -/
inductive ChunkResult where
  | finished (nextWrite : Nat) (log : List WriteCall)
  | fatal (log : List WriteCall)
deriving DecidableEq, Repr

/-- The `do ... while (bytesRead > 0)` loop of `cloneFile` (dtree.c:95-110). `buffer` holds
the chunk just read, `outputPointer` is the offset of the output pointer in it, `bytesRead`
the count still to write, `j` the index of the next `write` call. `none`: out of fuel. -/
def writeLoop (os : Kernel) (buffer : List Byte) :
    Nat → Nat → Nat → Nat → List WriteCall → Option ChunkResult
  | 0, _, _, _, _ => none
  | fuel + 1, outputPointer, bytesRead, j, log =>
    match os.writeOffer j with
    | WriteResult.ok k =>
      let bytesWritten := min k bytesRead
      let log := log ++ [⟨bytesRead, (buffer.drop outputPointer).take bytesWritten⟩]
      let bytesRead := bytesRead - bytesWritten
      let outputPointer := outputPointer + bytesWritten
      if 0 < bytesRead then writeLoop os buffer fuel outputPointer bytesRead (j + 1) log
      else some (ChunkResult.finished (j + 1) log)
    | WriteResult.eintr =>
      let log := log ++ [⟨bytesRead, []⟩]
      if 0 < bytesRead then writeLoop os buffer fuel outputPointer bytesRead (j + 1) log
      else some (ChunkResult.finished (j + 1) log)
    | WriteResult.error => some (ChunkResult.fatal (log ++ [⟨bytesRead, []⟩]))

/-- What `cloneFile` returns and what it wrote. -/
structure CloneResult where
  ret : Int
  log : List WriteCall
deriving DecidableEq, Repr

/-- The `while ((bytesRead = read(...)) > 0)` loop of `cloneFile` (dtree.c:90-115) with the
two returns it leads to. `remaining` is the unread part of the source, `i` and `j` the
indices of the next `read` and `write` calls. `none`: out of fuel. -/
def readLoop (os : Kernel) :
    Nat → List Byte → Nat → Nat → List WriteCall → Option CloneResult
  | 0, _, _, _, _ => none
  | fuel + 1, remaining, i, j, log =>
    match os.readOffer i with
    | none => some ⟨0, log⟩
    | some k =>
      let buffer := remaining.take (min k 8192)
      let bytesRead := buffer.length
      if 0 < bytesRead then
        match writeLoop os buffer fuel 0 bytesRead j log with
        | none => none
        | some (ChunkResult.fatal log) => some ⟨-1, log⟩
        | some (ChunkResult.finished j log) =>
          readLoop os fuel (remaining.drop bytesRead) (i + 1) j log
      else some ⟨0, log⟩

/-- Source `cloneFile` (dtree.c:72-116). -/
def cloneFile (os : Kernel) (fuel : Nat) : Option CloneResult :=
  match os.source with
  | none => some ⟨-1, []⟩
  | some content =>
    if os.destinationOpens then readLoop os fuel content 0 0 []
    else some ⟨-1, []⟩

/-! ## Action dispatcher -/

/-- The type flag `nftw` passes to its callback (`<ftw.h>`). -/
inductive NodeType where
  | FTW_F
  | FTW_D
  | FTW_DNR
  | FTW_NS
  | FTW_SL
  | FTW_DP
  | FTW_SLN
deriving DecidableEq, Repr

/-- The one field of `struct stat` the source reads. `st_size` is an `off_t`. -/
structure Stat where
  st_size : Int
deriving DecidableEq, Repr

/-- The file-scope variables of dtree.c (lines 15-20). -/
structure Globals where
  numFiles : Int
  numDirectories : Int
  cumulativeSize : Int
  desiredSuffix : CStr
  targetLocation : CStr
  actionType : Int
deriving DecidableEq, Repr

/-- What the callback asks of the outside world, in call order. -/
inductive Call where
  | printf (line : CStr)
  | fprintf (line : CStr)
  | buildIntermediaryDirectories (path : CStr)
  | cloneFile (sourceFile destinationFile : CStr)
  | unlink (path : CStr)
deriving DecidableEq, Repr

/-- The library and the file system as the callback meets them. -/
structure Sys where
  /-- The constant of `<limits.h>`. -/
  PATH_MAX : Nat
  /-- The content of the buffer after `dirname(buffer)` was called on it. -/
  dirname : CStr → CStr
  /-- The content of `absolutePath` after `realpath(nodePath, absolutePath)`. -/
  realpath : CStr → CStr
  /-- The value the call `cloneFile(sourceFile, destinationFile)` returns. -/
  cloneFileRet : CStr → CStr → Int
  /-- The value the call `unlink(path)` returns. -/
  unlinkRet : CStr → Int

/-- The value of an `int` after an arithmetic result `x` is stored in it (32 bits, two's
complement). -/
def wrapInt (x : Int) : Int := (x + 2 ^ 31) % 2 ^ 32 - 2 ^ 31

/-- The value of a `long long` after an arithmetic result `x` is stored in it (64 bits, two's
complement). -/
def wrapLongLong (x : Int) : Int := (x + 2 ^ 63) % 2 ^ 64 - 2 ^ 63

/-- The test `suffix && strcmp(suffix, desiredSuffix) == 0` after
`suffix = strrchr(nodePath, '.')` (dtree.c:135-136, 169-173, 237-238). -/
def suffixMatches (nodePath desiredSuffix : CStr) : Bool :=
  match strrchr nodePath '.' with
  | some suffix => decide (strcmp suffix desiredSuffix = 0)
  | none => false

/-- The effect of `snprintf(destinationPath, PATH_MAX, "%s/%s", targetLocation, relativePath)`. -/
def joinPath (sys : Sys) (targetLocation relativePath : CStr) : CStr :=
  snprintf sys.PATH_MAX (targetLocation ++ '/' :: relativePath)

/-- The result of one callback invocation: the globals after it, the calls it made, and the
value it returned to `nftw`. -/
structure Visit where
  globals : Globals
  calls : List Call
  ret : Int

/-- Source `manageFileSystemNode` (dtree.c:119-247). -/
def manageFileSystemNode (sys : Sys) (g : Globals) (nodePath : CStr) (statusBuffer : Stat)
    (nodeType : NodeType) : Visit :=
  if g.actionType = 1 then
    ⟨g, [Call.printf (nodePath ++ ['\n'])], 0⟩
  else if g.actionType = 2 then
    if nodeType = NodeType.FTW_F ∧ suffixMatches nodePath g.desiredSuffix then
      ⟨g, [Call.printf (sys.realpath nodePath ++ ['\n'])], 0⟩
    else ⟨g, [], 0⟩
  else if g.actionType = 3 then
    if nodeType = NodeType.FTW_F then
      ⟨{ g with numFiles := wrapInt (g.numFiles + 1) }, [], 0⟩
    else ⟨g, [], 0⟩
  else if g.actionType = 4 then
    if nodeType = NodeType.FTW_D then
      ⟨{ g with numDirectories := wrapInt (g.numDirectories + 1) }, [], 0⟩
    else ⟨g, [], 0⟩
  else if g.actionType = 5 then
    if nodeType = NodeType.FTW_F then
      ⟨{ g with cumulativeSize := wrapLongLong (g.cumulativeSize + statusBuffer.st_size) }, [], 0⟩
    else ⟨g, [], 0⟩
  else if g.actionType = 6 then
    if nodeType = NodeType.FTW_F then
      if 0 < strlen g.desiredSuffix ∧ suffixMatches nodePath g.desiredSuffix then
        ⟨g, [], 0⟩
      else
        match createRelativePath nodePath g.targetLocation with
        | some relativePath =>
          let destinationPath := joinPath sys g.targetLocation relativePath
          let directoryPath := sys.dirname destinationPath
          ⟨g, [Call.buildIntermediaryDirectories directoryPath,
               Call.cloneFile nodePath destinationPath] ++
              (if sys.cloneFileRet nodePath destinationPath ≠ 0 then
                [Call.fprintf ("Unable to copy ".data ++ nodePath ++ ['\n'])]
               else []), 0⟩
        | none => ⟨g, [], 0⟩
    else if nodeType = NodeType.FTW_D then
      match createRelativePath nodePath g.targetLocation with
      | some relativePath =>
        ⟨g, [Call.buildIntermediaryDirectories (joinPath sys g.targetLocation relativePath)], 0⟩
      | none => ⟨g, [], 0⟩
    else ⟨g, [], 0⟩
  else if g.actionType = 7 then
    if nodeType = NodeType.FTW_F then
      match createRelativePath nodePath g.targetLocation with
      | some relativePath =>
        let destinationPath := joinPath sys g.targetLocation relativePath
        let directoryPath := sys.dirname destinationPath
        ⟨g, [Call.buildIntermediaryDirectories directoryPath,
             Call.cloneFile nodePath destinationPath] ++
            (if sys.cloneFileRet nodePath destinationPath = 0 then [Call.unlink nodePath]
             else [Call.fprintf ("Error on move: ".data ++ nodePath ++ ['\n'])]), 0⟩
      | none => ⟨g, [], 0⟩
    else if nodeType = NodeType.FTW_D ∧ strcmp nodePath g.targetLocation ≠ 0 then
      match createRelativePath nodePath g.targetLocation with
      | some relativePath =>
        ⟨g, [Call.buildIntermediaryDirectories (joinPath sys g.targetLocation relativePath)], 0⟩
      | none => ⟨g, [], 0⟩
    else ⟨g, [], 0⟩
  else if g.actionType = 8 then
    if nodeType = NodeType.FTW_F ∧ suffixMatches nodePath g.desiredSuffix then
      ⟨g, [Call.unlink nodePath] ++
          (if sys.unlinkRet nodePath ≠ 0 then
            [Call.fprintf ("Failed to delete: ".data ++ nodePath ++ ['\n'])]
           else []), 0⟩
    else ⟨g, [], 0⟩
  else ⟨g, [], 0⟩

/-- A node as `nftw` hands it to the callback. -/
structure Node where
  nodePath : CStr
  statusBuffer : Stat
  nodeType : NodeType
deriving DecidableEq, Repr

/-- The walk of `nftw` over the visited nodes, in visiting order: the callback runs on each
node and a non-zero return stops the walk. The result is the globals after the walk, the
calls made, and the value `nftw` hands back. -/
def walk (sys : Sys) : Globals → List Node → Visit
  | g, [] => ⟨g, [], 0⟩
  | g, n :: rest =>
    let v := manageFileSystemNode sys g n.nodePath n.statusBuffer n.nodeType
    if v.ret ≠ 0 then v
    else
      let w := walk sys v.globals rest
      ⟨w.globals, v.calls ++ w.calls, w.ret⟩

/-- The globals as `main` sets them for `-cp source destination [extension]`
(dtree.c:272-276, 305-320): `argv3` is the destination directory, `argv4` the optional
extension. The source directory `argv[2]` is not stored. -/
def mainCopyGlobals (sys : Sys) (argv3 : CStr) (argv4 : Option CStr) : Globals :=
  { numFiles := 0, numDirectories := 0, cumulativeSize := 0,
    desiredSuffix := (argv4.getD []).take 15,
    targetLocation := argv3.take (sys.PATH_MAX - 1),
    actionType := 6 }

/-- A Linux system on which `dirname` cuts the buffer at its last `'/'`, `realpath` leaves
the path as it is, and `cloneFile` and `unlink` succeed. -/
def linuxSys : Sys :=
  { PATH_MAX := 4096,
    dirname := fun p => (p.reverse.dropWhile (fun c => c ≠ '/')).drop 1 |>.reverse,
    realpath := fun p => p,
    cloneFileRet := fun _ _ => 0,
    unlinkRet := fun _ => 0 }

/-! ## Quantities the specification speaks of -/

/-- The number of regular-file nodes in a sequence of visited nodes. -/
def countFiles (nodes : List Node) : Nat :=
  nodes.countP (fun n => decide (n.nodeType = NodeType.FTW_F))

/-- The number of directory nodes in a sequence of visited nodes. -/
def countDirectories (nodes : List Node) : Nat :=
  nodes.countP (fun n => decide (n.nodeType = NodeType.FTW_D))

/-- The sum of the byte sizes of the regular-file nodes in a sequence of visited nodes. -/
def totalFileSize (nodes : List Node) : Int :=
  ((nodes.filter (fun n => decide (n.nodeType = NodeType.FTW_F))).map
    (fun n => n.statusBuffer.st_size)).sum

/-- The filename of a node: the final component of its path, what follows the last `'/'`. -/
def fileName (path : CStr) : CStr := path.rtakeWhile (fun ch => ch != '/')

/-- The substring of a name from its last `'.'` to its end, the `'.'` included; `none` when
the name has no `'.'`. -/
def extensionOf (name : CStr) : Option CStr :=
  if '.' ∈ name then some ('.' :: name.rtakeWhile (fun ch => ch != '.')) else none

/-- A path with one trailing `'/'` removed. -/
def trimTrailingSlash (path : CStr) : CStr :=
  if path.getLast? = some '/' then path.dropLast else path

/-- The ancestor prefixes of a path, shortest first: for every `'/'` of the path that is not
its first character, the prefix that ends just before it. The prefix before a trailing `'/'`
is the path itself and no ancestor, so a `'/'` that is the last character yields none. -/
def ancestorPrefixes (path : CStr) : List CStr :=
  ((List.range' 1 (path.length - 2)).filter (fun i => path.getD i ' ' == '/')).map
    (fun i => path.take i)

/-- The globals with zeroed counters, as `main` leaves them before the walk. -/
def zeroedGlobals (actionType : Int) (desiredSuffix targetLocation : CStr) : Globals :=
  { numFiles := 0, numDirectories := 0, cumulativeSize := 0,
    desiredSuffix := desiredSuffix, targetLocation := targetLocation,
    actionType := actionType }

/-! ## Concrete inputs used below -/

/-- A system on which every copy fails. -/
def failingCopySys : Sys := { linuxSys with cloneFileRet := fun _ _ => -1 }

/-- The globals of a move to "/dst". -/
def moveGlobals : Globals :=
  { numFiles := 0, numDirectories := 0, cumulativeSize := 0,
    desiredSuffix := [], targetLocation := "/dst".data, actionType := 7 }

/-- A file system on which both files open and the first `read` of the source fails. -/
def readFailure : Kernel :=
  { source := some [1, 2, 3], destinationOpens := true,
    readOffer := fun _ => none, writeOffer := fun _ => WriteResult.ok 8192 }

/-- A regular file of the given size. -/
def fileNode (path : CStr) (size : Int) : Node := ⟨path, ⟨size⟩, NodeType.FTW_F⟩

/-- A directory. -/
def dirNode (path : CStr) : Node := ⟨path, ⟨4096⟩, NodeType.FTW_D⟩

/-- The tree of the specification's first scenario, in visiting order. -/
def scenarioNodes : List Node :=
  [dirNode "/src".data, fileNode "/src/a.txt".data 10, dirNode "/src/sub".data,
   fileNode "/src/sub/b.log".data 5]

/-- A delete-by-extension run whose filter contains a `'/'`. -/
def slashFilterGlobals : Globals :=
  { numFiles := 0, numDirectories := 0, cumulativeSize := 0,
    desiredSuffix := ".b/file".data, targetLocation := [], actionType := 8 }

/-- The globals of a delete-by-extension run with the filter ".txt". -/
def deleteTxtGlobals : Globals :=
  { numFiles := 0, numDirectories := 0, cumulativeSize := 0,
    desiredSuffix := ".txt".data, targetLocation := [], actionType := 8 }

/-- A write call stays within the chunk size `bound`: it asks for at least one and at most
`bound` bytes, and no more bytes are accepted than were asked for. -/
abbrev SoundWrite (bound : Nat) (w : WriteCall) : Prop :=
  1 ≤ w.requested ∧ w.requested ≤ bound ∧ w.accepted.length ≤ w.requested

/-- The entry `w` logged for the `j`-th call of `write` is what the kernel answered to that
call: when the kernel offered to accept `k` bytes, `min k requested` bytes were accepted; when
the call was interrupted or failed, none. -/
def AnswersOffer (os : Kernel) (j : Nat) (w : WriteCall) : Prop :=
  match os.writeOffer j with
  | WriteResult.ok k => w.accepted.length = min k w.requested
  | WriteResult.eintr => w.accepted = []
  | WriteResult.error => w.accepted = []

/-- Every entry of the log is the kernel's answer to the call of the same index. -/
def FollowsOffers (os : Kernel) (log : List WriteCall) : Prop :=
  ∀ j w, log[j]? = some w → AnswersOffer os j w

/-- The next call after `w` retries what `w` left: when `w` accepted fewer bytes than it
asked for, `next` asks for exactly the remainder. -/
abbrev RetryOf (w next : WriteCall) : Prop :=
  w.accepted.length < w.requested → next.requested = w.requested - w.accepted.length

/-- A short or interrupted write is always followed by a write for the remaining bytes of the
same chunk, and the last write of the log left nothing behind. -/
def RetriesRemainder (log : List WriteCall) : Prop :=
  List.Chain' RetryOf log ∧ ∀ w, log.getLast? = some w → ¬ w.accepted.length < w.requested

/-- A file system that interrupts the first `write`, then accepts one byte per call, and
delivers the source in reads of at most two bytes. -/
def stutteringKernel : Kernel :=
  { source := some [10, 20, 30], destinationOpens := true,
    readOffer := fun _ => some 2,
    writeOffer := fun j => if j = 0 then WriteResult.eintr else WriteResult.ok 1 }

/-! ## Path resolver: properties -/

theorem strncmp_append_self (root t : CStr) : strncmp (root ++ t) root root.length = 0 := by
  induction root with
  | nil => simp [strncmp]
  | cons x xs ih => simp [strncmp, ih]

theorem charAt_append_length (root t : CStr) :
    charAt (root ++ t) root.length = t.headD (Char.ofNat 0) := by
  induction root with
  | nil => cases t <;> simp [charAt]
  | cons x xs ih => simpa [charAt] using ih

/-- C9. For every root and every relative string, `createRelativePath (root + "/" + rel, root)`
succeeds with exactly `rel`, and `createRelativePath (root, root)` succeeds with the empty
string. -/
theorem createRelativePath_success_forms (root rel : CStr) :
    createRelativePath (root ++ '/' :: rel) root = some rel ∧
    createRelativePath root root = some [] := by
  constructor
  · have h1 := strncmp_append_self root ('/' :: rel)
    have h2 := charAt_append_length root ('/' :: rel)
    simp only [List.headD_cons] at h2
    simp [createRelativePath, strlen, h1, h2]
  · have h1 := strncmp_append_self root []
    have h2 := charAt_append_length root []
    simp only [List.append_nil, List.headD_nil] at h1 h2
    have h3 : Char.ofNat 0 ≠ '/' := by decide
    simp [createRelativePath, strlen, h1, h2, h3]

/-- C1. On node path "/a/bb/file" and root "/a/b" the source `createRelativePath` does not
fail: it returns the string "b/file", although the node path neither equals the root nor
begins with the root followed by the separator. -/
theorem createRelativePath_textual_prefix_resolves :
    createRelativePath "/a/bb/file".data "/a/b".data = some "b/file".data ∧
    "/a/bb/file".data ≠ "/a/b".data ∧
    ¬ ("/a/b".data ++ ['/']) <+: "/a/bb/file".data := by
  decide

/-! ## Dispatcher: copy and move -/

/-- C2. Copying "/src" to "/dst" with no exclusion filter: on the regular file "/src/a.txt"
the callback makes no call at all, so nothing is copied to "/dst/a.txt". It resolves the node
against `targetLocation`, which `main` set to the destination root, and "/src/a.txt" does
not begin with "/dst". -/
theorem copy_resolves_against_destination (dirname realpath : CStr → CStr)
    (cloneFileRet : CStr → CStr → Int) (unlinkRet : CStr → Int) (statusBuffer : Stat) :
    (mainCopyGlobals ⟨4096, dirname, realpath, cloneFileRet, unlinkRet⟩
        "/dst".data none).targetLocation = "/dst".data ∧
    createRelativePath "/src/a.txt".data "/dst".data = none ∧
    (manageFileSystemNode ⟨4096, dirname, realpath, cloneFileRet, unlinkRet⟩
        (mainCopyGlobals ⟨4096, dirname, realpath, cloneFileRet, unlinkRet⟩ "/dst".data none)
        "/src/a.txt".data statusBuffer NodeType.FTW_F).calls = [] := by
  refine ⟨by simp [mainCopyGlobals], by decide, ?_⟩
  simp [manageFileSystemNode, mainCopyGlobals, strlen, createRelativePath, strncmp]

/-- C6. Move action on a regular file whose destination path resolves: the callback calls
`cloneFile` on the node and the destination path, it calls `unlink` on the node exactly when
that copy returned 0, it calls `unlink` on nothing else, and it returns 0. -/
theorem move_unlinks_iff_copy_succeeded (sys : Sys) (g : Globals) (nodePath : CStr)
    (statusBuffer : Stat) (relativePath : CStr) (hmove : g.actionType = 7)
    (hres : createRelativePath nodePath g.targetLocation = some relativePath) :
    Call.cloneFile nodePath (joinPath sys g.targetLocation relativePath) ∈
      (manageFileSystemNode sys g nodePath statusBuffer NodeType.FTW_F).calls ∧
    (Call.unlink nodePath ∈
        (manageFileSystemNode sys g nodePath statusBuffer NodeType.FTW_F).calls ↔
      sys.cloneFileRet nodePath (joinPath sys g.targetLocation relativePath) = 0) ∧
    (∀ q, Call.unlink q ∈
        (manageFileSystemNode sys g nodePath statusBuffer NodeType.FTW_F).calls → q = nodePath) ∧
    (manageFileSystemNode sys g nodePath statusBuffer NodeType.FTW_F).ret = 0 ∧
    (manageFileSystemNode sys g nodePath statusBuffer NodeType.FTW_F).globals = g := by
  by_cases hc : sys.cloneFileRet nodePath (joinPath sys g.targetLocation relativePath) = 0
  · simp [manageFileSystemNode, hmove, hres, hc]
  · simp [manageFileSystemNode, hmove, hres, hc]

/-- Witness for C6: a move of "/dst/a.txt" under "/dst" on a system where the copy fails. -/
theorem move_unlinks_iff_copy_succeeded_witness :
    Call.cloneFile "/dst/a.txt".data (joinPath failingCopySys "/dst".data "a.txt".data) ∈
      (manageFileSystemNode failingCopySys moveGlobals "/dst/a.txt".data ⟨10⟩
        NodeType.FTW_F).calls ∧
    (Call.unlink "/dst/a.txt".data ∈
        (manageFileSystemNode failingCopySys moveGlobals "/dst/a.txt".data ⟨10⟩
          NodeType.FTW_F).calls ↔
      failingCopySys.cloneFileRet "/dst/a.txt".data
        (joinPath failingCopySys "/dst".data "a.txt".data) = 0) ∧
    (∀ q, Call.unlink q ∈
        (manageFileSystemNode failingCopySys moveGlobals "/dst/a.txt".data ⟨10⟩
          NodeType.FTW_F).calls → q = "/dst/a.txt".data) ∧
    (manageFileSystemNode failingCopySys moveGlobals "/dst/a.txt".data ⟨10⟩
      NodeType.FTW_F).ret = 0 ∧
    (manageFileSystemNode failingCopySys moveGlobals "/dst/a.txt".data ⟨10⟩
      NodeType.FTW_F).globals = moveGlobals :=
  move_unlinks_iff_copy_succeeded failingCopySys moveGlobals "/dst/a.txt".data ⟨10⟩
    "a.txt".data rfl (by decide)

/-! ## Stream copier: error reporting -/

/-- C5. When the first `read` of a three-byte source fails, the source `cloneFile` returns 0,
the success value, with nothing written, whatever the fuel. -/
theorem cloneFile_read_failure_returns_zero (fuel : Nat) :
    cloneFile readFailure (fuel + 1) = some ⟨0, []⟩ ∧
    readFailure.source = some [1, 2, 3] ∧
    written [] ≠ [1, 2, 3] := by
  refine ⟨?_, rfl, by decide⟩
  simp [cloneFile, readFailure, readLoop]

/-! ## Aggregator -/

theorem wrapInt_add (a b : Int) : wrapInt (wrapInt a + b) = wrapInt (a + b) := by
  unfold wrapInt; omega

theorem wrapInt_of_range (a : Int) (h0 : 0 ≤ a) (h1 : a < 2 ^ 31) : wrapInt a = a := by
  unfold wrapInt; omega

theorem wrapLongLong_add (a b : Int) :
    wrapLongLong (wrapLongLong a + b) = wrapLongLong (a + b) := by
  unfold wrapLongLong; omega

theorem wrapLongLong_of_range (a : Int) (h0 : 0 ≤ a) (h1 : a < 2 ^ 63) :
    wrapLongLong a = a := by
  unfold wrapLongLong; omega

theorem wrapInt_idem (a : Int) : wrapInt (wrapInt a) = wrapInt a := by
  unfold wrapInt; omega

theorem wrapLongLong_idem (a : Int) : wrapLongLong (wrapLongLong a) = wrapLongLong a := by
  unfold wrapLongLong; omega

theorem walk_cons_of_ret_zero (sys : Sys) (g : Globals) (n : Node) (rest : List Node)
    (h : (manageFileSystemNode sys g n.nodePath n.statusBuffer n.nodeType).ret = 0) :
    (walk sys g (n :: rest)).globals =
      (walk sys (manageFileSystemNode sys g n.nodePath n.statusBuffer n.nodeType).globals
        rest).globals := by
  simp [walk, h]

theorem walk_numFiles (sys : Sys) (nodes : List Node) :
    ∀ g : Globals, g.actionType = 3 → wrapInt g.numFiles = g.numFiles →
      (walk sys g nodes).globals.numFiles = wrapInt (g.numFiles + countFiles nodes) := by
  induction nodes with
  | nil =>
    intro g _ hr
    simpa [walk, countFiles] using hr.symm
  | cons n rest ih =>
    intro g ha hr
    by_cases hf : n.nodeType = NodeType.FTW_F
    · have hv : manageFileSystemNode sys g n.nodePath n.statusBuffer n.nodeType =
          ⟨{ g with numFiles := wrapInt (g.numFiles + 1) }, [], 0⟩ := by
        simp [manageFileSystemNode, ha, hf]
      rw [walk_cons_of_ret_zero sys g n rest (by rw [hv]), hv]
      have h := ih { g with numFiles := wrapInt (g.numFiles + 1) } ha (wrapInt_idem _)
      dsimp only at h ⊢
      rw [h]
      simp only [countFiles, List.countP_cons, hf, decide_True, if_true]
      rw [wrapInt_add]
      congr 1
      push_cast
      ring
    · have hv : manageFileSystemNode sys g n.nodePath n.statusBuffer n.nodeType =
          ⟨g, [], 0⟩ := by
        simp [manageFileSystemNode, ha, hf]
      rw [walk_cons_of_ret_zero sys g n rest (by rw [hv]), hv]
      rw [ih _ ha hr]
      simp [countFiles, List.countP_cons, hf]

theorem walk_numDirectories (sys : Sys) (nodes : List Node) :
    ∀ g : Globals, g.actionType = 4 → wrapInt g.numDirectories = g.numDirectories →
      (walk sys g nodes).globals.numDirectories =
        wrapInt (g.numDirectories + countDirectories nodes) := by
  induction nodes with
  | nil =>
    intro g _ hr
    simpa [walk, countDirectories] using hr.symm
  | cons n rest ih =>
    intro g ha hr
    by_cases hf : n.nodeType = NodeType.FTW_D
    · have hv : manageFileSystemNode sys g n.nodePath n.statusBuffer n.nodeType =
          ⟨{ g with numDirectories := wrapInt (g.numDirectories + 1) }, [], 0⟩ := by
        simp [manageFileSystemNode, ha, hf]
      rw [walk_cons_of_ret_zero sys g n rest (by rw [hv]), hv]
      have h := ih { g with numDirectories := wrapInt (g.numDirectories + 1) } ha
        (wrapInt_idem _)
      dsimp only at h ⊢
      rw [h]
      simp only [countDirectories, List.countP_cons, hf, decide_True, if_true]
      rw [wrapInt_add]
      congr 1
      push_cast
      ring
    · have hv : manageFileSystemNode sys g n.nodePath n.statusBuffer n.nodeType =
          ⟨g, [], 0⟩ := by
        simp [manageFileSystemNode, ha, hf]
      rw [walk_cons_of_ret_zero sys g n rest (by rw [hv]), hv]
      rw [ih _ ha hr]
      simp [countDirectories, List.countP_cons, hf]

theorem walk_cumulativeSize (sys : Sys) (nodes : List Node) :
    ∀ g : Globals, g.actionType = 5 → wrapLongLong g.cumulativeSize = g.cumulativeSize →
      (walk sys g nodes).globals.cumulativeSize =
        wrapLongLong (g.cumulativeSize + totalFileSize nodes) := by
  induction nodes with
  | nil =>
    intro g _ hr
    simpa [walk, totalFileSize] using hr.symm
  | cons n rest ih =>
    intro g ha hr
    by_cases hf : n.nodeType = NodeType.FTW_F
    · have hv : manageFileSystemNode sys g n.nodePath n.statusBuffer n.nodeType =
          ⟨{ g with cumulativeSize := wrapLongLong (g.cumulativeSize + n.statusBuffer.st_size) },
            [], 0⟩ := by
        simp [manageFileSystemNode, ha, hf]
      rw [walk_cons_of_ret_zero sys g n rest (by rw [hv]), hv]
      have h := ih
        { g with cumulativeSize := wrapLongLong (g.cumulativeSize + n.statusBuffer.st_size) }
        ha (wrapLongLong_idem _)
      dsimp only at h ⊢
      rw [h]
      simp only [totalFileSize, List.filter_cons, hf, decide_True, if_true, List.map_cons,
        List.sum_cons]
      rw [wrapLongLong_add]
      congr 1
      ring
    · have hv : manageFileSystemNode sys g n.nodePath n.statusBuffer n.nodeType =
          ⟨g, [], 0⟩ := by
        simp [manageFileSystemNode, ha, hf]
      rw [walk_cons_of_ret_zero sys g n rest (by rw [hv]), hv]
      rw [ih _ ha hr]
      simp [totalFileSize, List.filter_cons, hf]

theorem totalFileSize_nonneg (nodes : List Node)
    (h : ∀ n ∈ nodes, n.nodeType = NodeType.FTW_F → 0 ≤ n.statusBuffer.st_size) :
    0 ≤ totalFileSize nodes := by
  unfold totalFileSize
  apply List.sum_nonneg
  intro x hx
  simp only [List.mem_map, List.mem_filter, decide_eq_true_eq] at hx
  obtain ⟨n, ⟨hn, hf⟩, rfl⟩ := hx
  exact h n hn hf

theorem countFiles_replicate (k : Nat) (p : CStr) (sz : Int) :
    countFiles (List.replicate k (fileNode p sz)) = k := by
  simp [countFiles, List.countP_replicate, fileNode]

theorem wrapInt_zero : wrapInt 0 = 0 := by decide

theorem wrapLongLong_zero : wrapLongLong 0 = 0 := by decide

/-- C7, as stated, fails: after a walk over 2^31 regular files the `int` file counter, started
at zero, holds -2^31 and not the number of files. -/
theorem file_counter_wraps :
    (walk linuxSys (zeroedGlobals 3 [] [])
      (List.replicate (2 ^ 31) (fileNode "/f".data 0))).globals.numFiles = -2147483648 ∧
    countFiles (List.replicate (2 ^ 31) (fileNode "/f".data 0)) = 2 ^ 31 := by
  refine ⟨?_, countFiles_replicate _ _ _⟩
  rw [walk_numFiles linuxSys (List.replicate (2 ^ 31) (fileNode "/f".data 0))
    (zeroedGlobals 3 [] []) rfl wrapInt_zero, countFiles_replicate]
  decide

/-- C7, amended. Starting from zeroed counters, under the count-files action the final file
counter equals the number of regular-file nodes of the sequence provided that number is
below 2^31, and under the count-directories action the final directory counter equals the
number of directory nodes provided that number is below 2^31; a node of another kind leaves
the respective counter unchanged. -/
theorem counters_equal_node_counts (sys : Sys) (desiredSuffix targetLocation : CStr)
    (nodes : List Node) :
    (countFiles nodes < 2 ^ 31 →
      (walk sys (zeroedGlobals 3 desiredSuffix targetLocation) nodes).globals.numFiles =
        countFiles nodes) ∧
    (countDirectories nodes < 2 ^ 31 →
      (walk sys (zeroedGlobals 4 desiredSuffix targetLocation) nodes).globals.numDirectories =
        countDirectories nodes) ∧
    (∀ (g : Globals) (n : Node), g.actionType = 3 → n.nodeType ≠ NodeType.FTW_F →
      (manageFileSystemNode sys g n.nodePath n.statusBuffer n.nodeType).globals.numFiles =
        g.numFiles) ∧
    (∀ (g : Globals) (n : Node), g.actionType = 4 → n.nodeType ≠ NodeType.FTW_D →
      (manageFileSystemNode sys g n.nodePath n.statusBuffer n.nodeType).globals.numDirectories =
        g.numDirectories) := by
  refine ⟨?_, ?_, ?_, ?_⟩
  · intro h
    rw [walk_numFiles sys nodes _ rfl wrapInt_zero]
    simp only [zeroedGlobals, zero_add]
    exact wrapInt_of_range _ (by positivity) (by exact_mod_cast h)
  · intro h
    rw [walk_numDirectories sys nodes _ rfl wrapInt_zero]
    simp only [zeroedGlobals, zero_add]
    exact wrapInt_of_range _ (by positivity) (by exact_mod_cast h)
  · intro g n ha hn
    simp [manageFileSystemNode, ha, hn]
  · intro g n ha hn
    simp [manageFileSystemNode, ha, hn]

/-- Witness for C7: the tree of the first scenario has two files and two directories. -/
theorem counters_equal_node_counts_witness :
    (walk linuxSys (zeroedGlobals 3 [] []) scenarioNodes).globals.numFiles = 2 ∧
    (walk linuxSys (zeroedGlobals 4 [] []) scenarioNodes).globals.numDirectories = 2 :=
  ⟨(counters_equal_node_counts linuxSys [] [] scenarioNodes).1 (by decide),
   (counters_equal_node_counts linuxSys [] [] scenarioNodes).2.1 (by decide)⟩

/-- C8, as stated, fails: after a walk over two regular files of 2^62 bytes each the
`long long` total, started at zero, holds -2^63 and not the sum of the sizes. -/
theorem cumulative_size_wraps :
    (walk linuxSys (zeroedGlobals 5 [] [])
      [fileNode "/a".data (2 ^ 62), fileNode "/b".data (2 ^ 62)]).globals.cumulativeSize =
        -9223372036854775808 ∧
    totalFileSize [fileNode "/a".data (2 ^ 62), fileNode "/b".data (2 ^ 62)] =
      9223372036854775808 := by
  have hc : totalFileSize [fileNode "/a".data (2 ^ 62), fileNode "/b".data (2 ^ 62)] =
      9223372036854775808 := by
    simp [totalFileSize, fileNode]
  refine ⟨?_, hc⟩
  rw [walk_cumulativeSize linuxSys _ (zeroedGlobals 5 [] []) rfl wrapLongLong_zero, hc]
  decide

/-- C8, amended. Starting from a zero total, under the sum-size action the final cumulative
size equals the sum of the byte sizes of exactly the regular-file nodes of the sequence,
provided no regular file has a negative size and that sum is below 2^63; a node of another
kind leaves the total unchanged. -/
theorem cumulative_size_equals_sum (sys : Sys) (desiredSuffix targetLocation : CStr)
    (nodes : List Node)
    (hsize : ∀ n ∈ nodes, n.nodeType = NodeType.FTW_F → 0 ≤ n.statusBuffer.st_size)
    (hsum : totalFileSize nodes < 2 ^ 63) :
    (walk sys (zeroedGlobals 5 desiredSuffix targetLocation) nodes).globals.cumulativeSize =
      totalFileSize nodes ∧
    (∀ (g : Globals) (n : Node), g.actionType = 5 → n.nodeType ≠ NodeType.FTW_F →
      (manageFileSystemNode sys g n.nodePath n.statusBuffer n.nodeType).globals.cumulativeSize =
        g.cumulativeSize) := by
  refine ⟨?_, ?_⟩
  · rw [walk_cumulativeSize sys nodes _ rfl wrapLongLong_zero]
    simp only [zeroedGlobals, zero_add]
    exact wrapLongLong_of_range _ (totalFileSize_nonneg nodes hsize) hsum
  · intro g n ha hn
    simp [manageFileSystemNode, ha, hn]

/-- Witness for C8: the files of 10 and 5 bytes of the first scenario give 15. -/
theorem cumulative_size_equals_sum_witness :
    (walk linuxSys (zeroedGlobals 5 [] []) scenarioNodes).globals.cumulativeSize = 15 := by
  have h := (cumulative_size_equals_sum linuxSys [] [] scenarioNodes (by decide)
    (by decide)).1
  simpa [totalFileSize, scenarioNodes, fileNode, dirNode] using h

/-! ## Extension test -/

theorem strcmp_eq_zero_iff (a : CStr) : ∀ b : CStr, strcmp a b = 0 ↔ a = b := by
  induction a with
  | nil => intro b; cases b <;> simp [strcmp]
  | cons x xs ih =>
    intro b
    cases b with
    | nil => simp [strcmp]
    | cons y ys =>
      by_cases h : x = y
      · simp [strcmp, h, ih]
      · by_cases h2 : x < y <;> simp [strcmp, h, h2]

theorem exists_last_split (c : Char) (s : CStr) (h : c ∈ s) :
    ∃ pre t, s = pre ++ c :: t ∧ c ∉ t := by
  induction s with
  | nil => simp at h
  | cons x xs ih =>
    by_cases hx : c ∈ xs
    · obtain ⟨pre, t, hs, ht⟩ := ih hx
      exact ⟨x :: pre, t, by simp [hs], ht⟩
    · have : c = x := by simpa [hx] using h
      exact ⟨[], xs, by simp [this], hx⟩

theorem rtakeWhile_ne_of_not_mem (c : Char) (s : CStr) (h : c ∉ s) :
    s.rtakeWhile (fun ch => ch != c) = s := by
  rw [List.rtakeWhile_eq_self_iff]
  intro x hx
  have : x ≠ c := fun e => h (e ▸ hx)
  simpa using this

theorem rtakeWhile_ne_split (c : Char) (pre t : CStr) (h : c ∉ t) :
    (pre ++ c :: t).rtakeWhile (fun ch => ch != c) = t := by
  unfold List.rtakeWhile
  have hpos : ∀ a ∈ t.reverse, (fun ch => ch != c) a = true := by
    intro a ha
    have : a ≠ c := fun e => h (e ▸ List.mem_reverse.mp ha)
    simpa using this
  rw [List.reverse_append, List.reverse_cons, List.append_assoc,
    List.takeWhile_append_of_pos hpos]
  simp

theorem strrchr_of_not_mem (c : Char) (s : CStr) (h : c ∉ s) : strrchr s c = none := by
  induction s with
  | nil => rfl
  | cons x xs ih =>
    have hx : ¬ x = c := fun e => h (by simp [e])
    have hxs : c ∉ xs := fun e => h (by simp [e])
    simp [strrchr, ih hxs, hx]

theorem strrchr_split (c : Char) (pre t : CStr) (h : c ∉ t) :
    strrchr (pre ++ c :: t) c = some (c :: t) := by
  induction pre with
  | nil => simp [strrchr, strrchr_of_not_mem c t h]
  | cons x xs ih => simp [strrchr, ih]

theorem extensionOf_of_not_mem (s : CStr) (h : '.' ∉ s) : extensionOf s = none := by
  simp [extensionOf, h]

theorem extensionOf_split (pre t : CStr) (h : '.' ∉ t) :
    extensionOf (pre ++ '.' :: t) = some ('.' :: t) := by
  simp [extensionOf, rtakeWhile_ne_split '.' pre t h]

/-- The source's suffix, taken from the whole node path, is the extension of the path. -/
theorem strrchr_dot_eq_extensionOf (s : CStr) : strrchr s '.' = extensionOf s := by
  by_cases h : '.' ∈ s
  · obtain ⟨pre, t, rfl, ht⟩ := exists_last_split '.' s h
    rw [strrchr_split '.' pre t ht, extensionOf_split pre t ht]
  · rw [strrchr_of_not_mem '.' s h, extensionOf_of_not_mem s h]

theorem suffixMatches_iff (nodePath desiredSuffix : CStr) :
    suffixMatches nodePath desiredSuffix = true ↔ extensionOf nodePath = some desiredSuffix := by
  unfold suffixMatches
  rw [strrchr_dot_eq_extensionOf]
  cases extensionOf nodePath with
  | none => simp
  | some t => simp [strcmp_eq_zero_iff]

/-- For a filter without `'/'`, the extension of the path and the extension of the filename
agree on whether they equal the filter. -/
theorem extensionOf_fileName_iff (path filter : CStr) (hslash : '/' ∉ filter) :
    extensionOf path = some filter ↔ extensionOf (fileName path) = some filter := by
  by_cases hp : '/' ∈ path
  · obtain ⟨pre, n, rfl, hn⟩ := exists_last_split '/' path hp
    have hfn : fileName (pre ++ '/' :: n) = n := rtakeWhile_ne_split '/' pre n hn
    rw [hfn]
    by_cases hd : '.' ∈ n
    · obtain ⟨a, b, rfl, hb⟩ := exists_last_split '.' n hd
      have e : pre ++ '/' :: (a ++ '.' :: b) = (pre ++ '/' :: a) ++ '.' :: b := by simp
      rw [e, extensionOf_split _ b hb, extensionOf_split a b hb]
    · rw [extensionOf_of_not_mem n hd]
      constructor
      · intro h
        exfalso
        by_cases hpre : '.' ∈ pre
        · obtain ⟨a, b, rfl, hb⟩ := exists_last_split '.' pre hpre
          have e : (a ++ '.' :: b) ++ '/' :: n = a ++ '.' :: (b ++ '/' :: n) := by simp
          have hbn : '.' ∉ b ++ '/' :: n := by
            simp only [List.mem_append, List.mem_cons, not_or]
            exact ⟨hb, by decide, hd⟩
          rw [e, extensionOf_split a _ hbn] at h
          apply hslash
          rw [← Option.some.inj h]
          simp
        · have hall : '.' ∉ pre ++ '/' :: n := by
            simp only [List.mem_append, List.mem_cons, not_or]
            exact ⟨hpre, by decide, hd⟩
          rw [extensionOf_of_not_mem _ hall] at h
          exact Option.noConfusion h
      · intro h
        exact Option.noConfusion h
  · have hfn : fileName path = path := rtakeWhile_ne_of_not_mem '/' path hp
    rw [hfn]

/-- C3, as stated, fails: the file "/a.b/file", whose filename "file" has no `'.'`, matches the
filter ".b/file" and is deleted, because the source looks for the last `'.'` in the whole
path. -/
theorem extension_test_reads_whole_path :
    (manageFileSystemNode linuxSys slashFilterGlobals "/a.b/file".data ⟨0⟩
      NodeType.FTW_F).calls = [Call.unlink "/a.b/file".data] ∧
    fileName "/a.b/file".data = "file".data ∧
    extensionOf (fileName "/a.b/file".data) = none := by
  decide

/-- C3, amended. For a filter that contains no `'/'`, the extension test of a regular-file
node succeeds iff the substring of the node's filename from its last `'.'` to its end equals
the filter (so never when the filename has no `'.'`): list-by-extension prints the node iff it
does, delete-by-extension unlinks the node iff it does, and copy skips the node when it does
and treats it as if there were no filter when it does not. -/
theorem extension_test_on_filename (sys : Sys) (g : Globals) (nodePath : CStr)
    (statusBuffer : Stat) (hslash : '/' ∉ g.desiredSuffix) :
    (suffixMatches nodePath g.desiredSuffix = true ↔
      extensionOf (fileName nodePath) = some g.desiredSuffix) ∧
    (g.actionType = 2 →
      ((manageFileSystemNode sys g nodePath statusBuffer NodeType.FTW_F).calls =
          [Call.printf (sys.realpath nodePath ++ ['\n'])] ↔
        extensionOf (fileName nodePath) = some g.desiredSuffix) ∧
      (extensionOf (fileName nodePath) ≠ some g.desiredSuffix →
        (manageFileSystemNode sys g nodePath statusBuffer NodeType.FTW_F).calls = [])) ∧
    (g.actionType = 8 →
      (Call.unlink nodePath ∈
          (manageFileSystemNode sys g nodePath statusBuffer NodeType.FTW_F).calls ↔
        extensionOf (fileName nodePath) = some g.desiredSuffix)) ∧
    (g.actionType = 6 →
      (extensionOf (fileName nodePath) = some g.desiredSuffix →
        (manageFileSystemNode sys g nodePath statusBuffer NodeType.FTW_F).calls = []) ∧
      (extensionOf (fileName nodePath) ≠ some g.desiredSuffix →
        (manageFileSystemNode sys g nodePath statusBuffer NodeType.FTW_F).calls =
          (manageFileSystemNode sys { g with desiredSuffix := [] } nodePath statusBuffer
            NodeType.FTW_F).calls)) ∧
    ('.' ∉ fileName nodePath → suffixMatches nodePath g.desiredSuffix = false) := by
  have hm : suffixMatches nodePath g.desiredSuffix = true ↔
      extensionOf (fileName nodePath) = some g.desiredSuffix := by
    rw [suffixMatches_iff, extensionOf_fileName_iff nodePath g.desiredSuffix hslash]
  refine ⟨hm, ?_, ?_, ?_, ?_⟩
  · intro ha
    by_cases h : suffixMatches nodePath g.desiredSuffix = true
    · have h2 := hm.mp h
      simp [manageFileSystemNode, ha, h, h2]
    · have h2 : ¬ extensionOf (fileName nodePath) = some g.desiredSuffix := fun e => h (hm.mpr e)
      simp [manageFileSystemNode, ha, h, h2]
  · intro ha
    by_cases h : suffixMatches nodePath g.desiredSuffix = true
    · have h2 := hm.mp h
      simp [manageFileSystemNode, ha, h, h2]
    · have h2 : ¬ extensionOf (fileName nodePath) = some g.desiredSuffix := fun e => h (hm.mpr e)
      simp [manageFileSystemNode, ha, h, h2]
  · intro ha
    constructor
    · intro h2
      have h := hm.mpr h2
      have hne : g.desiredSuffix ≠ [] := by
        intro e
        rw [e] at h2
        unfold extensionOf at h2
        split at h2 <;> simp at h2
      have hlen : 0 < strlen g.desiredSuffix := List.length_pos.mpr hne
      simp [manageFileSystemNode, ha, h, hlen]
    · intro h2
      have h : ¬ suffixMatches nodePath g.desiredSuffix = true := fun e => h2 (hm.mp e)
      simp only [manageFileSystemNode, ha, h, strlen]
      cases createRelativePath nodePath g.targetLocation <;> simp
  · intro hd
    have hnone := extensionOf_of_not_mem (fileName nodePath) hd
    cases hsm : suffixMatches nodePath g.desiredSuffix with
    | false => rfl
    | true =>
      have h2 := hm.mp hsm
      rw [hnone] at h2
      exact Option.noConfusion h2

/-- Witness for C3: deleting by ".txt" on the file "/src/a.txt". -/
theorem extension_test_on_filename_witness :
    Call.unlink "/src/a.txt".data ∈
        (manageFileSystemNode linuxSys deleteTxtGlobals "/src/a.txt".data ⟨10⟩
          NodeType.FTW_F).calls ↔
      extensionOf (fileName "/src/a.txt".data) = some deleteTxtGlobals.desiredSuffix :=
  (extension_test_on_filename linuxSys deleteTxtGlobals "/src/a.txt".data ⟨10⟩
    (by decide)).2.2.1 rfl

/-! ## Directory materializer: properties -/

theorem mkdirLoop_eq (p : CStr) (rest : CStr) :
    ∀ i : Nat, p.drop i = rest →
      mkdirLoop p i rest =
        ((List.range' i rest.length).filter (fun j => p.getD j ' ' == '/')).map
          (fun j => p.take j) := by
  induction rest with
  | nil => intro i _; simp [mkdirLoop]
  | cons c rest ih =>
    intro i hi
    have hget : p[i]? = some c := by
      have h1 : (p.drop i)[0]? = some c := by rw [hi]; simp
      rw [List.getElem?_drop] at h1
      simpa using h1
    have hrest : p.drop (i + 1) = rest := by
      have h2 : p.drop (i + 1) = (p.drop i).drop 1 := by rw [List.drop_drop]
      rw [h2, hi]
      rfl
    have hr : List.range' i (c :: rest).length = i :: List.range' (i + 1) rest.length := by
      simp [List.range'_succ]
    rw [hr]
    by_cases hs : c = '/'
    · simp [mkdirLoop, hs, ih (i + 1) hrest, List.filter_cons, hget]
    · simp [mkdirLoop, hs, ih (i + 1) hrest, List.filter_cons, hget]

theorem charAt_last (p : CStr) (h : p ≠ []) :
    (charAt p (strlen p - 1) = '/') ↔ p.getLast? = some '/' := by
  unfold charAt strlen
  rw [List.getD_eq_getElem?_getD, ← List.getLast?_eq_getElem?]
  rw [List.getLast?_eq_getLast p h]
  simp

theorem ancestor_filter_congr (p q : CStr) (n : Nat)
    (h : ∀ j, 1 ≤ j → j < 1 + n → q[j]? = p[j]? ∧ q.take j = p.take j) :
    ((List.range' 1 n).filter (fun j => q.getD j ' ' == '/')).map (fun j => q.take j) =
      ((List.range' 1 n).filter (fun j => p.getD j ' ' == '/')).map (fun j => p.take j) := by
  have hf : (List.range' 1 n).filter (fun j => q.getD j ' ' == '/') =
      (List.range' 1 n).filter (fun j => p.getD j ' ' == '/') := by
    apply List.filter_congr
    intro j hj
    rw [List.mem_range'_1] at hj
    simp only [List.getD_eq_getElem?_getD, (h j hj.1 hj.2).1]
  rw [hf]
  apply List.map_congr_left
  intro j hj
  have hj2 := (List.mem_filter.mp hj).1
  rw [List.mem_range'_1] at hj2
  exact (h j hj2.1 hj2.2).2

theorem mkdirLoop_eq_ancestorPrefixes (p : CStr) (hne : p ≠ []) :
    mkdirLoop (trimTrailingSlash p) 1 ((trimTrailingSlash p).drop 1) = ancestorPrefixes p := by
  have hlen : 1 ≤ p.length := List.length_pos.mpr hne
  rw [mkdirLoop_eq (trimTrailingSlash p) ((trimTrailingSlash p).drop 1) 1 rfl]
  unfold ancestorPrefixes trimTrailingSlash
  by_cases h : p.getLast? = some '/'
  · rw [if_pos h]
    have hl : (List.drop 1 p.dropLast).length = p.length - 2 := by
      rw [List.length_drop, List.length_dropLast]; omega
    rw [hl]
    apply ancestor_filter_congr
    intro j _ hj2
    rw [List.dropLast_eq_take]
    constructor
    · exact List.getElem?_take_of_lt (by omega)
    · rw [List.take_take, Nat.min_eq_left (by omega)]
  · rw [if_neg h]
    have hl : (List.drop 1 p).length = p.length - 1 := List.length_drop 1 p
    rw [hl]
    by_cases h2 : p.length = 1
    · rw [h2]
    · have e : p.length - 1 = (p.length - 2) + 1 := by omega
      rw [e, List.range'_1_concat, List.filter_append, List.map_append]
      have hlast : p.getD (1 + (p.length - 2)) ' ' ≠ '/' := by
        intro hc
        apply h
        have hidx : 1 + (p.length - 2) = p.length - 1 := by omega
        rw [hidx, List.getD_eq_getElem?_getD, ← List.getLast?_eq_getElem?,
          List.getLast?_eq_getLast p hne] at hc
        rw [List.getLast?_eq_getLast p hne]
        exact congrArg some hc
      have hnil : List.filter (fun j => p.getD j ' ' == '/') [1 + (p.length - 2)] = [] := by
        rw [List.getD_eq_getElem?_getD] at hlast
        simp [List.filter_cons, hlast]
      rw [hnil]
      simp

/-- Every destination path the callback builds fits the `PATH_MAX` buffer. -/
theorem joinPath_length_lt (sys : Sys) (targetLocation relativePath : CStr)
    (h : 0 < sys.PATH_MAX) : (joinPath sys targetLocation relativePath).length < sys.PATH_MAX := by
  unfold joinPath snprintf
  rw [List.length_take]
  omega

/-- The destination root `main` stores fits the `PATH_MAX` buffer. -/
theorem mainCopyGlobals_targetLocation_length_lt (sys : Sys) (argv3 : CStr)
    (argv4 : Option CStr) (h : 0 < sys.PATH_MAX) :
    (mainCopyGlobals sys argv3 argv4).targetLocation.length < sys.PATH_MAX := by
  unfold mainCopyGlobals
  simp only [List.length_take]
  omega

/-- C10. For every non-empty path (a string held in a `PATH_MAX` buffer, so shorter than
`PATH_MAX`), `buildIntermediaryDirectories` issues `mkdir` for every ancestor prefix of the
path, from the shortest to the longest, and finally for the path itself with one trailing
`'/'` removed, and it returns what that last `mkdir` returned; this holds whatever the `mkdir`
calls return, so a failing `mkdir` on an ancestor stops none of the later calls. -/
theorem materializer_mkdir_chain (PATH_MAX : Nat) (mkdir : Nat → CStr → Int)
    (fullPath : CStr) (hne : fullPath ≠ []) (hlen : fullPath.length < PATH_MAX) :
    buildIntermediaryDirectories PATH_MAX mkdir fullPath =
      some ⟨ancestorPrefixes fullPath ++ [trimTrailingSlash fullPath],
        mkdir (ancestorPrefixes fullPath).length (trimTrailingSlash fullPath)⟩ := by
  have hsn : snprintf PATH_MAX fullPath = fullPath := by
    unfold snprintf
    exact List.take_of_length_le (by omega)
  have hpos : strlen fullPath ≠ 0 := by
    unfold strlen
    exact fun e => hne (List.length_eq_zero.mp e)
  unfold buildIntermediaryDirectories
  simp only [hsn, hpos, if_false]
  have htrim : (if charAt fullPath (strlen fullPath - 1) = '/' then
      fullPath.take (strlen fullPath - 1) else fullPath) = trimTrailingSlash fullPath := by
    unfold trimTrailingSlash
    by_cases h : fullPath.getLast? = some '/'
    · rw [if_pos ((charAt_last fullPath hne).mpr h), if_pos h, List.dropLast_eq_take]
      rfl
    · rw [if_neg (fun e => h ((charAt_last fullPath hne).mp e)), if_neg h]
  rw [htrim, mkdirLoop_eq_ancestorPrefixes fullPath hne]

/-- Witness for C10: the chain for "/dst/a/b/" when the first directory already exists. -/
theorem materializer_mkdir_chain_witness :
    buildIntermediaryDirectories 4096 (fun i _ => if i = 0 then -1 else 0) "/dst/a/b/".data =
      some ⟨["/dst".data, "/dst/a".data, "/dst/a/b".data], 0⟩ := by
  have h := materializer_mkdir_chain 4096 (fun i _ => if i = 0 then -1 else 0)
    "/dst/a/b/".data (by decide) (by decide)
  rw [h]
  decide

/-! ## Stream copier: short writes and interruptions -/

theorem written_append_singleton (log : List WriteCall) (w : WriteCall) :
    written (log ++ [w]) = written log ++ w.accepted := by
  simp [written]

theorem followsOffers_concat (os : Kernel) (log : List WriteCall) (e : WriteCall)
    (hT : FollowsOffers os log) (he : AnswersOffer os log.length e) :
    FollowsOffers os (log ++ [e]) := by
  intro j w h
  rcases Nat.lt_or_ge j log.length with hlt | hge
  · rw [List.getElem?_append_left hlt] at h
    exact hT j w h
  · rw [List.getElem?_append_right hge] at h
    have hj : j - log.length = 0 := by
      by_contra hne
      have h1 : 1 ≤ j - log.length := by omega
      rw [List.getElem?_eq_none (by simpa using h1)] at h
      exact Option.noConfusion h
    rw [hj] at h
    have hw : e = w := by simpa using h
    have hjl : j = log.length := by omega
    subst hw
    subst hjl
    exact he

theorem chain_concat (log : List WriteCall) (e : WriteCall)
    (hC : List.Chain' RetryOf log) (hL : ∀ w, log.getLast? = some w → RetryOf w e) :
    List.Chain' RetryOf (log ++ [e]) := by
  rw [List.chain'_append]
  refine ⟨hC, List.chain'_singleton e, ?_⟩
  intro x hx y hy
  have hy2 : e = y := by simpa using hy
  subst hy2
  exact hL x hx

theorem getLast_concat_eq (log : List WriteCall) (e w : WriteCall)
    (h : (log ++ [e]).getLast? = some w) : w = e := by
  rw [List.getLast?_concat] at h
  exact (Option.some.inj h).symm

theorem writeLoop_finishes (os : Kernel) (N : Nat)
    (hwrite : ∀ j, os.writeOffer j = WriteResult.eintr ∨
      ∃ k, 1 ≤ k ∧ os.writeOffer j = WriteResult.ok k)
    (hfin : ∀ j, N ≤ j → os.writeOffer j ≠ WriteResult.eintr) (buffer : List Byte) :
    ∀ (m fuel outputPointer bytesRead j : Nat) (log : List WriteCall),
      bytesRead + (N - j) ≤ m → 0 < bytesRead → outputPointer + bytesRead = buffer.length →
      m ≤ fuel → log.length = j → FollowsOffers os log → List.Chain' RetryOf log →
      (∀ w, log.getLast? = some w → w.accepted.length < w.requested →
        w.requested - w.accepted.length = bytesRead) →
      ∃ j2 log2, writeLoop os buffer fuel outputPointer bytesRead j log =
          some (ChunkResult.finished j2 log2) ∧
        written log2 = written log ++ buffer.drop outputPointer ∧
        log2.length = j2 ∧ FollowsOffers os log2 ∧ RetriesRemainder log2 ∧
        (∀ w ∈ log2, w ∈ log ∨ SoundWrite bytesRead w) := by
  intro m
  induction m with
  | zero => intro fuel o b j log hm hb; omega
  | succ m ih =>
    intro fuel o b j log hm hb hlen hfuel hj hT hC hL
    cases fuel with
    | zero => omega
    | succ fuel =>
      rcases hwrite j with he | ⟨k, hk, hok⟩
      · have hjN : j < N := by
          by_contra hge
          exact hfin j (by omega) he
        have hA : AnswersOffer os log.length ⟨b, []⟩ := by
          rw [hj]; unfold AnswersOffer; rw [he]
        obtain ⟨j2, log2, h1, h2, h3, h4, h5, h6⟩ :=
          ih fuel o b (j + 1) (log ++ [⟨b, []⟩]) (by omega) hb hlen (by omega)
            (by rw [List.length_append, hj]; rfl)
            (followsOffers_concat os log _ hT hA)
            (chain_concat log _ hC (fun w hw hs => (hL w hw hs).symm))
            (fun w hw _ => by
              rw [getLast_concat_eq log _ w hw]
              simp)
        refine ⟨j2, log2, ?_, ?_, h3, h4, h5, ?_⟩
        · simp only [writeLoop, he, if_pos hb]
          exact h1
        · rw [h2, written_append_singleton]
          simp
        · intro w hw
          rcases h6 w hw with h | h
          · rcases List.mem_append.mp h with h | h
            · exact Or.inl h
            · right
              have hw2 : w = ⟨b, []⟩ := by simpa using h
              subst hw2
              exact ⟨hb, Nat.le_refl _, by simp⟩
          · exact Or.inr h
      · have hlenacc : ((buffer.drop o).take (min k b)).length = min k b := by
          rw [List.length_take, List.length_drop]; omega
        have hA : AnswersOffer os log.length ⟨b, (buffer.drop o).take (min k b)⟩ := by
          rw [hj]; unfold AnswersOffer; rw [hok]
          exact hlenacc
        have hT2 := followsOffers_concat os log _ hT hA
        have hC2 : List.Chain' RetryOf (log ++ [⟨b, (buffer.drop o).take (min k b)⟩]) :=
          chain_concat log _ hC (fun w hw hs => (hL w hw hs).symm)
        have hS : SoundWrite b ⟨b, (buffer.drop o).take (min k b)⟩ :=
          ⟨hb, Nat.le_refl _, by show ((buffer.drop o).take (min k b)).length ≤ b; omega⟩
        by_cases hrem : 0 < b - min k b
        · obtain ⟨j2, log2, h1, h2, h3, h4, h5, h6⟩ :=
            ih fuel (o + min k b) (b - min k b) (j + 1)
              (log ++ [⟨b, (buffer.drop o).take (min k b)⟩]) (by omega) hrem (by omega)
              (by omega) (by rw [List.length_append, hj]; rfl) hT2 hC2
              (fun w hw _ => by
                rw [getLast_concat_eq log _ w hw]
                show b - ((buffer.drop o).take (min k b)).length = b - min k b
                rw [hlenacc])
          refine ⟨j2, log2, ?_, ?_, h3, h4, h5, ?_⟩
          · simp only [writeLoop, hok, if_pos hrem]
            exact h1
          · rw [h2, written_append_singleton, List.append_assoc]
            congr 1
            show List.take (min k b) (List.drop o buffer) ++ List.drop (o + min k b) buffer =
              List.drop o buffer
            rw [← List.drop_drop]
            exact List.take_append_drop _ _
          · intro w hw
            rcases h6 w hw with h | h
            · rcases List.mem_append.mp h with h | h
              · exact Or.inl h
              · right
                have hw2 : w = ⟨b, (buffer.drop o).take (min k b)⟩ := by simpa using h
                subst hw2
                exact hS
            · right
              exact ⟨h.1, by have := h.2.1; omega, h.2.2⟩
        · refine ⟨j + 1, log ++ [⟨b, (buffer.drop o).take (min k b)⟩], ?_, ?_, ?_, hT2,
            ⟨hC2, ?_⟩, ?_⟩
          · simp only [writeLoop, hok, if_neg hrem]
          · rw [written_append_singleton]
            congr 1
            show List.take (min k b) (List.drop o buffer) = List.drop o buffer
            apply List.take_of_length_le
            rw [List.length_drop]
            omega
          · rw [List.length_append, hj]; rfl
          · intro w hw
            rw [getLast_concat_eq log _ w hw]
            show ¬ ((buffer.drop o).take (min k b)).length < b
            rw [hlenacc]
            omega
          · intro w hw
            rcases List.mem_append.mp hw with h | h
            · exact Or.inl h
            · right
              have hw2 : w = ⟨b, (buffer.drop o).take (min k b)⟩ := by simpa using h
              subst hw2
              exact hS

theorem readLoop_finishes (os : Kernel) (N : Nat)
    (hread : ∀ i, ∃ k, 1 ≤ k ∧ os.readOffer i = some k)
    (hwrite : ∀ j, os.writeOffer j = WriteResult.eintr ∨
      ∃ k, 1 ≤ k ∧ os.writeOffer j = WriteResult.ok k)
    (hfin : ∀ j, N ≤ j → os.writeOffer j ≠ WriteResult.eintr) :
    ∀ (n fuel : Nat) (remaining : List Byte) (i j : Nat) (log : List WriteCall),
      remaining.length ≤ n → n + N + 1 ≤ fuel →
      log.length = j → FollowsOffers os log → RetriesRemainder log →
      ∃ log2, readLoop os fuel remaining i j log = some ⟨0, log2⟩ ∧
        written log2 = written log ++ remaining ∧
        FollowsOffers os log2 ∧ RetriesRemainder log2 ∧
        (∀ w ∈ log2, w ∈ log ∨ SoundWrite 8192 w) := by
  intro n
  induction n with
  | zero =>
    intro fuel remaining i j log hn hfuel _ hT hR
    have hnil : remaining = [] := List.length_eq_zero.mp (by omega)
    subst hnil
    obtain ⟨k, _, hk⟩ := hread i
    cases fuel with
    | zero => omega
    | succ fuel =>
      refine ⟨log, ?_, by simp, hT, hR, fun w hw => Or.inl hw⟩
      simp [readLoop, hk]
  | succ n ih =>
    intro fuel remaining i j log hn hfuel hj hT hR
    obtain ⟨k, hk1, hk⟩ := hread i
    cases fuel with
    | zero => omega
    | succ fuel =>
      by_cases hpos : 0 < (remaining.take (min k 8192)).length
      · have hchunk : (remaining.take (min k 8192)).length ≤ remaining.length := by
          rw [List.length_take]; omega
        have h8 : (remaining.take (min k 8192)).length ≤ 8192 := by
          rw [List.length_take]; omega
        obtain ⟨j2, log2, hw1, hw2, hwj, hwT, hwR, hw3⟩ :=
          writeLoop_finishes os N hwrite hfin (remaining.take (min k 8192))
            ((remaining.take (min k 8192)).length + (N - j)) fuel 0
            (remaining.take (min k 8192)).length j log (Nat.le_refl _) hpos (by omega)
            (by omega) hj hT hR.1 (fun w hw hs => absurd hs (hR.2 w hw))
        obtain ⟨log3, hr1, hr2, hrT, hrR, hr3⟩ :=
          ih fuel (remaining.drop (remaining.take (min k 8192)).length) (i + 1) j2 log2
            (by rw [List.length_drop]; omega) (by omega) hwj hwT hwR
        refine ⟨log3, ?_, ?_, hrT, hrR, ?_⟩
        · simp only [readLoop, hk, if_pos hpos, hw1]
          exact hr1
        · rw [hr2, hw2, List.append_assoc]
          congr 1
          rw [List.drop_zero, List.length_take]
          have e : List.drop (min (min k 8192) remaining.length) remaining =
              List.drop (min k 8192) remaining := by
            by_cases hle : min k 8192 ≤ remaining.length
            · rw [Nat.min_eq_left hle]
            · rw [Nat.min_eq_right (by omega), List.drop_of_length_le (Nat.le_refl _),
                List.drop_of_length_le (by omega)]
          rw [e]
          exact List.take_append_drop _ _
        · intro w hw
          rcases hr3 w hw with h | h
          · rcases hw3 w h with h2 | h2
            · exact Or.inl h2
            · right
              exact ⟨h2.1, by have := h2.2.1; omega, h2.2.2⟩
          · exact Or.inr h
      · have hnil : remaining.take (min k 8192) = [] :=
          List.length_eq_zero.mp (by omega)
        have hrem : remaining = [] := by
          cases remaining with
          | nil => rfl
          | cons x xs =>
            have hmin : min k 8192 = (min k 8192 - 1) + 1 := by omega
            rw [hmin, List.take_succ_cons] at hnil
            exact List.noConfusion hnil
        subst hrem
        refine ⟨log, ?_, by simp, hT, hR, fun w hw => Or.inl hw⟩
        simp [readLoop, hk]

/-- C4. When both files open, every `read` delivers at least one byte while any remain, and
every `write` either accepts at least one byte (never more than requested) or is interrupted
(EINTR), with no interruption from the `N`-th call on, then `cloneFile`, given fuel for
`length + N + 1` loop rounds, returns 0, and its write calls are these: the `j`-th call
accepted what the kernel offered to the `j`-th call (nothing when interrupted), every short
or interrupted call is followed by a call for exactly the remaining bytes of the same chunk,
every call asks for at most 8192 bytes, and the accepted bytes, concatenated in call order,
are exactly the source content. -/
theorem cloneFile_recovers_short_writes (os : Kernel) (content : List Byte) (N : Nat)
    (hsrc : os.source = some content) (hdst : os.destinationOpens = true)
    (hread : ∀ i, ∃ k, 1 ≤ k ∧ os.readOffer i = some k)
    (hwrite : ∀ j, os.writeOffer j = WriteResult.eintr ∨
      ∃ k, 1 ≤ k ∧ os.writeOffer j = WriteResult.ok k)
    (hfin : ∀ j, N ≤ j → os.writeOffer j ≠ WriteResult.eintr) :
    ∀ fuel, content.length + N + 1 ≤ fuel →
      ∃ log, cloneFile os fuel = some ⟨0, log⟩ ∧ written log = content ∧
        FollowsOffers os log ∧ RetriesRemainder log ∧
        ∀ w ∈ log, SoundWrite 8192 w := by
  intro fuel hfuel
  have hT0 : FollowsOffers os [] := by
    intro j w h
    simp at h
  have hR0 : RetriesRemainder [] := by
    refine ⟨List.chain'_nil, ?_⟩
    intro w h
    simp at h
  obtain ⟨log, h1, h2, hT, hR, h3⟩ :=
    readLoop_finishes os N hread hwrite hfin content.length fuel content 0 0 []
      (Nat.le_refl _) hfuel rfl hT0 hR0
  refine ⟨log, ?_, ?_, hT, hR, ?_⟩
  · simp only [cloneFile, hsrc, hdst, if_true]
    exact h1
  · simpa [written] using h2
  · intro w hw
    rcases h3 w hw with h | h
    · simp at h
    · exact h

/-- Witness for C4: a three-byte source, reads of two bytes, the first write interrupted
and one byte accepted per write afterwards. -/
theorem cloneFile_recovers_short_writes_witness :
    ∃ log, cloneFile stutteringKernel 5 = some ⟨0, log⟩ ∧ written log = [10, 20, 30] ∧
      FollowsOffers stutteringKernel log ∧ RetriesRemainder log ∧
      ∀ w ∈ log, SoundWrite 8192 w :=
  cloneFile_recovers_short_writes stutteringKernel [10, 20, 30] 1 rfl rfl
    (fun _ => ⟨2, by decide, rfl⟩)
    (fun j => by
      by_cases h : j = 0
      · left; simp [stutteringKernel, h]
      · right; exact ⟨1, Nat.le_refl _, by simp [stutteringKernel, h]⟩)
    (fun j hj => by
      have h : j ≠ 0 := by omega
      simp [stutteringKernel, h])
    5 (by decide)

end DTree
